import Mathlib

/-!
Verification of the resolution-and-pipeline core of `kubeglue.py`.

Strings are modelled as `List Char`.  Pure helpers of the source
(`columns`, `take`, `singleton_only`, `grep_objects`, `PortForward.parse`,
the `env`-probe line parser, the `-k` index-selection step of `runner`, and
the ephemeral-relay bash script) are translated into executable Lean
definitions; subprocess calls (`kubectl ...`) are modelled by passing the
would-be subprocess output in as data.
-/

/-- Decidable equality for `Except`, used to state results about fallible
operations concretely. -/
instance {ε α : Type _} [DecidableEq ε] [DecidableEq α] :
    DecidableEq (Except ε α) := fun a b =>
  match a, b with
  | Except.ok x, Except.ok y =>
    if h : x = y then isTrue (by rw [h])
    else isFalse (fun he => h (by injection he))
  | Except.error x, Except.error y =>
    if h : x = y then isTrue (by rw [h])
    else isFalse (fun he => h (by injection he))
  | Except.ok _, Except.error _ => isFalse (fun he => Except.noConfusion he)
  | Except.error _, Except.ok _ => isFalse (fun he => Except.noConfusion he)

namespace Kubeglue

/-- Strings are modelled as lists of characters. -/
abbrev Str := List Char

/-- Coerce a Lean string literal to the `List Char` model. -/
def str (s : String) : Str := s.data

/-- Case folding used to model `re.I` (re.IGNORECASE): both the compiled
pattern and the subject are compared lower-cased. -/
def lc (l : Str) : Str := l.map Char.toLower

/-! ### `columns` — Python `str.split()` (split on whitespace runs, drop empties) -/

/-- Accumulator-style splitter: `acc` is the word currently being read. -/
def colsAux : Str → Str → List Str
  | [], acc => if acc = [] then [] else [acc]
  | c :: cs, acc =>
    if c.isWhitespace then
      if acc = [] then colsAux cs [] else acc :: colsAux cs []
    else colsAux cs (acc ++ [c])

/-- `columns(line) = line.split()` from the source: whitespace-delimited
fields, empty fields dropped. -/
def columns (line : Str) : List Str := colsAux line []

/-! ### `strip` — Python `str.strip()` -/

/-- Python `str.strip()`: drop whitespace from both ends. -/
def strip (l : Str) : Str :=
  (l.dropWhile Char.isWhitespace).rdropWhile Char.isWhitespace

/-! ### The object model: `KObject` -/

/-- One parsed workload object (`KObject` dataclass of the source): the raw
tabular `line`, the object kind string `type_`, and the header names. -/
structure KObject where
  line : Str
  type_ : Str
  headers : List Str
deriving DecidableEq, Repr

/-- `__post_init__`: `attributes = dict(zip(headers, columns(line)))`,
kept here as the zipped association list (Python `zip` truncates to the
shorter input). -/
def KObject.attributes (o : KObject) : List (Str × Str) :=
  o.headers.zip (columns o.line)

/-- Python `dict` lookup on `dict(zip(headers, values))`: the *last* binding
of a key wins, a missing key is `none` (a `KeyError` in the source's
`__getattr__`). -/
def KObject.getattr (o : KObject) (k : Str) : Option Str :=
  (o.attributes.reverse.find? (fun p => p.1 == k)).map (fun p => p.2)

/-- `KObject.is_pod`. -/
def KObject.is_pod (o : KObject) : Bool := o.type_ == str "pod"

/-- `KObject.is_deployment`. -/
def KObject.is_deployment (o : KObject) : Bool := o.type_ == str "deployment"

/-! ### Glob matching — `re.search(re.compile(fnmatch.translate(p), re.I), s)`

`fnmatch.translate` turns a glob into an end-anchored regex:
`*` ↦ `.*`, `?` ↦ `.`, `[...]` ↦ a character class (leading `!` negates,
a `]` right after `[` or `[!` is a literal member, `a-b` is a range, and a
`[` with no closing `]` is a literal `[`), any other character is literal.
Since `grep_objects` always prepends `*` to the pattern, `re.search` of the
end-anchored regex coincides with a full glob match of the whole subject.
The pattern is tokenized exactly as `fnmatch.translate` scans it, and the
token list is matched against the subject. -/

/-- One glob token. -/
inductive GTok where
  | star : GTok
  | qmark : GTok
  | lit : Char → GTok
  | cls : Bool → Str → GTok
deriving DecidableEq, Repr

/-- Split at the first `']'`: `splitClose l = some (before, after)` when a
closing bracket exists. -/
def splitClose : Str → Option (Str × Str)
  | [] => none
  | ']' :: r => some ([], r)
  | c :: r => (splitClose r).map (fun p => (c :: p.1, p.2))

/-- Parse a character class right after `[`, following `fnmatch.translate`:
an optional leading `!` negates; the first content character is part of the
class even when it is `]`; the class runs to the next `]`.  Returns
`(negated, members, rest-of-pattern)`, or `none` when no closing `]`
exists (then the `[` is a literal). -/
def classParse (ps : Str) : Option (Bool × Str × Str) :=
  let neg : Bool := ps.head? = some '!'
  let t : Str := if neg then ps.tail else ps
  match t with
  | [] => none
  | c :: t' =>
    match splitClose t' with
    | none => none
    | some (inner, rest) => some (neg, c :: inner, rest)

/-- Membership of a character in a class body: `a-b` is an inclusive range
(a trailing or leading `-` is a literal), any other character is a literal
member. -/
def classMatch : Str → Char → Bool
  | [], _ => false
  | a :: '-' :: b :: rest, c =>
    (a.toNat ≤ c.toNat && c.toNat ≤ b.toNat) || classMatch rest c
  | a :: rest, c => (a == c) || classMatch rest c

/-- Fuel-driven tokenizer mirroring the scan of `fnmatch.translate`.  One
unit of fuel is spent per step and every step consumes at least one pattern
character, so `fuel = pattern.length` always suffices. -/
def tokensF : Nat → Str → List GTok
  | 0, _ => []
  | _ + 1, [] => []
  | n + 1, c :: ps =>
    if c = '*' then GTok.star :: tokensF n ps
    else if c = '?' then GTok.qmark :: tokensF n ps
    else if c = '[' then
      match classParse ps with
      | some (neg, inner, rest) => GTok.cls neg inner :: tokensF n rest
      | none => GTok.lit '[' :: tokensF n ps
    else GTok.lit c :: tokensF n ps

/-- The token of a single glob character outside any character class. -/
def charTok (c : Char) : GTok :=
  if c = '*' then GTok.star
  else if c = '?' then GTok.qmark
  else GTok.lit c

/-- Tokenize a whole glob pattern. -/
def gtokens (p : Str) : List GTok := tokensF p.length p

/-- `anySuffix k s` holds when `k` accepts some suffix of `s` (the
semantics of `.*` followed by the rest of the regex). -/
def anySuffix (k : Str → Bool) : Str → Bool
  | [] => k []
  | c :: s' => k (c :: s') || anySuffix k s'

/-- Match a token list against a whole subject string. -/
def gmatch : List GTok → Str → Bool
  | [], s => s.isEmpty
  | GTok.star :: ts, s => anySuffix (gmatch ts) s
  | GTok.qmark :: ts, s =>
    match s with
    | [] => false
    | _ :: s' => gmatch ts s'
  | GTok.lit c :: ts, s =>
    match s with
    | [] => false
    | d :: s' => (d == c) && gmatch ts s'
  | GTok.cls neg inner :: ts, s =>
    match s with
    | [] => false
    | d :: s' => (neg != classMatch inner d) && gmatch ts s'

/-- Full (end-to-end) glob match of pattern `p` against subject `s`. -/
def globMatch (p s : Str) : Bool := gmatch (gtokens p) s

/-- The wildcard wrapping of `grep_objects`: prepend `*` unless the pattern
already starts with `*`, then append `*` unless it already ends with `*`. -/
def addStars (p : Str) : Str :=
  let p1 := if p.head? = some '*' then p else '*' :: p
  if p1.getLast? = some '*' then p1 else p1 ++ ['*']

/-- `grep_objects(pattern, kobjs, transform=lambda o: o.line)`: strip the
pattern, wrap it with wildcards, compile case-insensitively, and keep the
objects whose transformed view matches (`re.search`; a full match here, as
the wrapped pattern always starts with `*`). -/
def grep_objects (pattern : Str) (kobjs : List KObject)
    (transform : KObject → Str := fun o => o.line) : List KObject :=
  let p := addStars (strip pattern)
  kobjs.filter (fun o => globMatch (lc p) (lc (transform o)))

/-! ### Disambiguation: `singleton_only` -/

/-- The fixed message of `SingleValueException` (its constructor takes no
arguments, so the exception carries nothing but this text). -/
def singleValueMsg : String :=
  "expected single value but got multiple values [hint: use an index arg like -1, -2, -3, etc.]"

/-- `has_second(g)`: the sequence has at least two elements. -/
def has_second (xs : List α) : Bool :=
  match xs with
  | _ :: _ :: _ => true
  | _ => false

/-- `singleton_only` applied to an iterable: raise `SingleValueException`
when a second element exists, otherwise return `head(xs)` (`none` when
empty, the sole element otherwise). -/
def singleton_only (xs : List α) : Except String (Option α) :=
  if has_second xs then Except.error singleValueMsg else Except.ok xs.head?

/-! ### Index selection: `take` and the `runner` index step -/

/-- `take(lines, n)`: scan with a 1-based counter and return the line whose
position equals `n`, else `None`. -/
def take : List α → Nat → Option α
  | [], _ => none
  | x :: xs, n => if n = 1 then some x else take xs (n - 1)

/-- The value threaded between pipeline stages in `runner`: `None`, a
scalar, or a sequence. -/
inductive PipeVal (α : Type) where
  | noneV : PipeVal α
  | scalar : α → PipeVal α
  | seq : List α → PipeVal α
deriving DecidableEq, Repr

/-- The index-selection step of `runner` (lines 697–702): when an index is
pending, a sequence output is replaced by `take(output, index)` and any
non-sequence output is replaced by `None`; the index is then cleared.
Without a pending index the output passes through.  Returns the new output
and the cleared index slot. -/
def applyIndex (output : PipeVal α) (index : Option Nat) :
    PipeVal α × Option Nat :=
  match index with
  | none => (output, none)
  | some n =>
    (match output with
     | PipeVal.seq xs =>
       (match take xs n with
        | some a => PipeVal.scalar a
        | none => PipeVal.noneV)
     | _ => PipeVal.noneV, none)

/-- End of `runner`: exit code 1 exactly when the final output is `None`. -/
def exitCode (output : PipeVal α) : Nat :=
  match output with
  | PipeVal.noneV => 1
  | _ => 0

/-! ### `PortForward.parse` -/

/-- A parsed port-forward directive. -/
structure PortForward where
  host_port : Option Int
  pod_port : Int
  remote_ip : Option Str
deriving DecidableEq, Repr

/-- Python `str.split(sep)` for a one-character separator. -/
def splitOnChar (sep : Char) : Str → List Str
  | [] => [[]]
  | c :: cs =>
    if c = sep then [] :: splitOnChar sep cs
    else
      match splitOnChar sep cs with
      | [] => [[c]]
      | h :: t => (c :: h) :: t

/-- Valid continuation of a digit literal after its first digit: digits,
with single underscores allowed only between digits (Python `int`). -/
def digitsCore : Str → Bool
  | [] => true
  | '_' :: [] => false
  | '_' :: d :: rest => d.isDigit && digitsCore (d :: rest)
  | d :: rest => d.isDigit && digitsCore rest

/-- A valid unsigned integer body: at least one digit, then `digitsCore`. -/
def validIntBody : Str → Bool
  | [] => false
  | d :: rest => d.isDigit && digitsCore rest

/-- Numeric value of a digit/underscore string. -/
def digitsVal (l : Str) : Nat :=
  l.foldl (fun a c => if c.isDigit then a * 10 + (c.toNat - 48) else a) 0

/-- Python `int(s)`: strip whitespace, optional sign, digits (with
underscore separators); `none` models the `ValueError` raise. -/
def pyInt (raw : Str) : Option Int :=
  match strip raw with
  | '+' :: b => if validIntBody b then some (digitsVal b : Int) else none
  | '-' :: b => if validIntBody b then some (-(digitsVal b : Int)) else none
  | b => if validIntBody b then some (digitsVal b : Int) else none

/-- `int(host)` guarded by the emptiness test of the source:
`None if host.strip() == "" else int(host)`. -/
def hostField (host : Str) : Except String (Option Int) :=
  if strip host = [] then Except.ok none
  else
    match pyInt host with
    | some v => Except.ok (some v)
    | none => Except.error "ValueError: invalid literal for int()"

/-- `int(pod)` where failure models the `ValueError` raise. -/
def podField (pod : Str) : Except String Int :=
  match pyInt pod with
  | some v => Except.ok v
  | none => Except.error "ValueError: invalid literal for int()"

/-- `PortForward.parse(portspec)`: strip, count colons, and dispatch on the
colon-delimited grammar; more than two colons raise `ValueError`. -/
def PortForward.parse (portspec : Str) : Except String PortForward :=
  let ps := strip portspec
  let colons := ps.count ':'
  if colons = 2 then
    match splitOnChar ':' ps with
    | [host, remote, pod] => do
      let hp ← hostField host
      let pp ← podField pod
      Except.ok ⟨hp, pp, some remote⟩
    | _ => Except.error "unreachable: split of a 2-colon string"
  else if colons = 1 then
    match splitOnChar ':' ps with
    | [host, pod] => do
      let hp ← hostField host
      let pp ← podField pod
      Except.ok ⟨hp, pp, none⟩
    | _ => Except.error "unreachable: split of a 1-colon string"
  else if colons = 0 then
    match pyInt ps with
    | some v => Except.ok ⟨some v, v, none⟩
    | none => Except.error "ValueError: invalid literal for int()"
  else Except.error "Malform port spec"

/-! ### The environment probe of `exec` (`host_env=True`) -/

/-- One line of remote `env` output: `parts = line.split("=")`,
`key = parts[0]`, `value = parts[1] if len(parts) > 1 else ""`, both
stripped.  Note `parts[1]` is the segment between the first and second
`=`, not everything after the first `=`. -/
def parseEnvLine (line : Str) : Str × Str :=
  match splitOnChar '=' line with
  | [] => ([], [])
  | k :: rest =>
    (strip k,
     strip (match rest with
            | [] => []
            | v :: _ => v))

/-- The probed environment as an association list in input order (the
source builds a `dict`; lookups take the last binding of a key). -/
def probeEnv (ls : List Str) : List (Str × Str) := ls.map parseEnvLine

/-- Python `dict` lookup over the association list: last binding wins. -/
def envLookup (env : List (Str × Str)) (k : Str) : Option Str :=
  ((env.reverse).find? (fun p => p.1 == k)).map (fun p => p.2)

/-! ### `grep_pods` -/

/-- `require(predicate, message)`: `abort` (error message, exit 1) when the
predicate fails. -/
def require (predicate : Bool) (message : String) : Except String Unit :=
  if predicate then Except.ok () else Except.error message

/-- `grep_pods(pattern, kobj)`: with an upstream object, insist it is a
deployment, fetch the pods scoped by its `selector` attribute, and filter
them with `grep_objects`; without one, fetch all pods and filter.  The
`kubectl get pods` subprocess is modelled by the `getPods` argument
(selector-scoped listing); a missing `selector` attribute models the
`KeyError` of `__getattr__`. -/
def grep_pods (getPods : Option Str → List KObject) (pattern : Str)
    (kobj : Option KObject) : Except String (List KObject) :=
  match kobj with
  | some k => do
    let _ ← require k.is_deployment "deployment object expected"
    match k.getattr (str "selector") with
    | some sel => Except.ok (grep_objects pattern (getPods (some sel)))
    | none => Except.error "KeyError: selector"
  | none => Except.ok (grep_objects pattern (getPods none))

/-! ### The ephemeral-relay script (`PORT_FORWARD_SCRIPT`)

The script is bash: `trap cleanup EXIT` registers the relay-pod deletion,
`set -e` aborts the body at the first failing command, and the `EXIT` trap
runs exactly once when the shell exits — after a completed body, after a
failed command, or after an interrupt terminates the foreground command.
The three body commands are `kubectl run` (provision), `kubectl wait`
(ready), `kubectl port-forward` (forward); `cleanup` is `kubectl delete`.
-/

/-- The observable actions of the relay script. -/
inductive RelayAction where
  | run : RelayAction
  | wait : RelayAction
  | forward : RelayAction
  | cleanupDelete : RelayAction
deriving DecidableEq, Repr

/-- Outcome of one foreground command: success, or failure (non-zero exit,
error, or interruption of that command). -/
inductive StepOutcome where
  | ok : StepOutcome
  | fail : StepOutcome
deriving DecidableEq, Repr

/-- `set -e` execution of a command list: run in order, stop after the
first failing command. -/
def runSetE : List (RelayAction × StepOutcome) → List RelayAction
  | [] => []
  | (a, o) :: rest => a :: (if o = StepOutcome.ok then runSetE rest else [])

/-- A bash body under `trap t EXIT`: the `set -e` body trace followed by
the trap actions, which run exactly once on shell exit whatever the body
did. -/
def bashTrapExit (trapActs : List RelayAction)
    (cmds : List (RelayAction × StepOutcome)) : List RelayAction :=
  runSetE cmds ++ trapActs

/-- The action trace of `PORT_FORWARD_SCRIPT` given the outcome of each of
its three commands. -/
def relayScriptTrace (r1 r2 r3 : StepOutcome) : List RelayAction :=
  bashTrapExit [RelayAction.cleanupDelete]
    [(RelayAction.run, r1), (RelayAction.wait, r2), (RelayAction.forward, r3)]

/-! ### Spec-side object parsing (for comparison with the source)

The specification describes a `parse` that fails with `MalformedRowError`
when the zipped attribute mapping lacks `namespace` or `name`.  The source
`KObject.__post_init__` performs no such check; this definition follows
the spec's words so the two can be compared. -/

/-- Modelled from the spec (§4.1): parsing fails with `MalformedRowError`
when the attribute mapping lacks `namespace` or `name`; the source has no
such failure path. -/
def specParseWorkloadRef (line : Str) (type_ : Str) (headers : List Str) :
    Except String KObject :=
  let o : KObject := ⟨line, type_, headers⟩
  if (o.getattr (str "namespace")).isSome && (o.getattr (str "name")).isSome
  then Except.ok o
  else Except.error "MalformedRowError"

/-! ### Concrete fixtures

Concrete objects used to instantiate witnesses and counterexamples; the
header lists are the ones hard-coded in `get_pods` and `get_deployments`. -/

/-- The pod headers of `get_pods`. -/
def podHeaders : List Str :=
  [str "namespace", str "name", str "ready", str "status",
   str "restarts", str "age"]

/-- The deployment headers of `get_deployments` (`-o wide`). -/
def deployHeaders : List Str :=
  [str "namespace", str "name", str "ready", str "up-to-date",
   str "available", str "age", str "containers", str "images",
   str "selector"]

/-- A pod whose name contains `api`. -/
def objApi : KObject :=
  ⟨str "default billing-api-worker 1/1 Running 0 5d", str "pod", podHeaders⟩

/-- A pod whose name contains the literal text `a[b]`. -/
def objBracket : KObject :=
  ⟨str "default xa[b]x 1/1 Running 0 5d", str "pod", podHeaders⟩

/-- A pod named `mypod` whose status column is `Running`. -/
def objRunning : KObject :=
  ⟨str "default mypod 1/1 Running 0 5d", str "pod", podHeaders⟩

/-- A deployment whose `selector` attribute is `app=api`. -/
def depApi : KObject :=
  ⟨str "default api 1/1 1 1 5d app app-img app=api", str "deployment",
   deployHeaders⟩

/-- A pod managed by `depApi`'s selector. -/
def podApi123 : KObject :=
  ⟨str "default api-123 1/1 Running 0 1d", str "pod", podHeaders⟩

/-- A pods listing that returns `podApi123` for every selector. -/
def getPodsApi : Option Str → List KObject := fun _ => [podApi123]

/-! ## Supporting lemmas -/

/-- `Char.ofNat` at a valid codepoint decodes back to the same `Nat`. -/
theorem toNat_ofNat_valid {m : Nat} (h : Nat.isValidChar m) :
    (Char.ofNat m).toNat = m := by
  rw [Char.ofNat, dif_pos h]
  rfl

/-- For a target character that is neither an upper-case nor a lower-case
ASCII letter, `Char.toLower c = d` holds exactly when `c = d`. -/
theorem toLower_eq_iff_of_special {c d : Char}
    (hd : d.toNat < 65 ∨ (90 < d.toNat ∧ d.toNat < 97) ∨ 122 < d.toNat) :
    c.toLower = d ↔ c = d := by
  constructor
  · intro h
    simp only [Char.toLower] at h
    split at h
    · exfalso
      rename_i hc
      have hv : Nat.isValidChar (c.toNat + 32) := Or.inl (by omega)
      have h2 : (Char.ofNat (c.toNat + 32)).toNat = c.toNat + 32 :=
        toNat_ofNat_valid hv
      have h3 := congrArg Char.toNat h
      rw [h2] at h3
      omega
    · exact h
  · intro h
    subst h
    simp only [Char.toLower]
    rw [if_neg (by omega)]

/-- Lower-casing cannot introduce a `[`. -/
theorem lbrack_not_mem_lc {l : Str} (h : '[' ∉ l) : '[' ∉ lc l := by
  intro hm
  rcases List.mem_map.1 hm with ⟨c, hc, he⟩
  have : c = '[' :=
    (toLower_eq_iff_of_special (by right; left; constructor <;> decide)).1 he
  exact h (this ▸ hc)

/-- `strip l` is an infix of `l`. -/
theorem strip_infix (l : Str) : strip l <:+: l := by
  have h1 : strip l <+: l.dropWhile Char.isWhitespace :=
    List.rdropWhile_prefix _ _
  have h2 : l.dropWhile Char.isWhitespace <:+ l := List.dropWhile_suffix _
  exact h1.isInfix.trans h2.isInfix

/-- Every word produced by `colsAux` is an infix of the pending word
followed by the unread input. -/
theorem mem_colsAux_infix :
    ∀ (l acc w : Str), w ∈ colsAux l acc → w <:+: acc ++ l
  | [], acc, w, h => by
    unfold colsAux at h
    split at h
    · cases h
    · rcases List.mem_singleton.1 h with rfl
      exact ⟨[], [], by simp⟩
  | c :: cs, acc, w, h => by
    unfold colsAux at h
    split at h
    · split at h
      · have := mem_colsAux_infix cs [] w h
        simp only [List.nil_append] at this
        rcases this with ⟨u, v, huv⟩
        exact ⟨acc ++ [c] ++ u, v, by simp [← huv, List.append_assoc]⟩
      · rcases List.mem_cons.1 h with rfl | h'
        · exact ⟨[], c :: cs, by simp⟩
        · have := mem_colsAux_infix cs [] w h'
          simp only [List.nil_append] at this
          rcases this with ⟨u, v, huv⟩
          exact ⟨acc ++ [c] ++ u, v, by simp [← huv, List.append_assoc]⟩
    · have := mem_colsAux_infix cs (acc ++ [c]) w h
      rcases this with ⟨u, v, huv⟩
      exact ⟨u, v, by simpa [List.append_assoc] using huv⟩

/-- Every column of a line is an infix of the line. -/
theorem columns_infix {line w : Str} (h : w ∈ columns line) : w <:+: line := by
  simpa using mem_colsAux_infix line [] w h

/-- A value found by `getattr` is one of the whitespace-split columns. -/
theorem getattr_mem_columns {o : KObject} {k v : Str}
    (h : o.getattr k = some v) : v ∈ columns o.line := by
  unfold KObject.getattr at h
  cases hf : o.attributes.reverse.find? (fun p => p.1 == k) with
  | none => rw [hf] at h; cases h
  | some p =>
    rw [hf] at h
    have hv : p.2 = v := by
      simpa using h
    have hp : p ∈ o.attributes.reverse := List.mem_of_find?_eq_some hf
    have hp2 : (p.1, p.2) ∈ o.headers.zip (columns o.line) := by
      simpa [KObject.attributes] using List.mem_reverse.1 hp
    exact hv ▸ (List.of_mem_zip hp2).2

/-- `anySuffix` accepts whenever the continuation accepts some suffix. -/
theorem anySuffix_of_suffix {k : Str → Bool} :
    ∀ {s t : Str}, t <:+ s → k t = true → anySuffix k s = true
  | [], t, hts, hk => by
    have : t = [] := List.eq_nil_of_suffix_nil hts
    subst this
    simpa [anySuffix] using hk
  | c :: s', t, hts, hk => by
    rcases List.suffix_cons_iff.1 hts with rfl | h'
    · simp [anySuffix, hk]
    · simp [anySuffix, anySuffix_of_suffix h' hk]

/-- Conversely, an accepted `anySuffix` yields an accepted suffix. -/
theorem exists_suffix_of_anySuffix {k : Str → Bool} :
    ∀ {s : Str}, anySuffix k s = true → ∃ t, t <:+ s ∧ k t = true
  | [], h => ⟨[], List.nil_suffix, by simpa [anySuffix] using h⟩
  | c :: s', h => by
    rcases Bool.or_eq_true_iff.1 (by simpa [anySuffix] using h) with h1 | h2
    · exact ⟨c :: s', List.suffix_refl _, h1⟩
    · rcases exists_suffix_of_anySuffix h2 with ⟨t, hts, hk⟩
      exact ⟨t, hts.trans (List.suffix_cons c s'), hk⟩

/-- On a `[`-free pattern the tokenizer is just the per-character map,
independently of any sufficient fuel. -/
theorem tokensF_eq_map_charTok :
    ∀ (p : Str) (n : Nat), '[' ∉ p → p.length ≤ n →
      tokensF n p = p.map charTok
  | [], n, _, _ => by cases n <;> rfl
  | c :: ps, n, hb, hn => by
    have hc : c ≠ '[' := fun h => hb (h ▸ List.mem_cons_self c ps)
    have hb' : '[' ∉ ps := fun h => hb (List.mem_cons_of_mem c h)
    obtain ⟨m, rfl⟩ : ∃ m, n = m + 1 := by
      cases n
      · simp at hn
      · exact ⟨_, rfl⟩
    have hm : ps.length ≤ m := by simpa using hn
    by_cases h1 : c = '*'
    · subst h1
      simp [tokensF, charTok, tokensF_eq_map_charTok ps m hb' hm]
    · by_cases h2 : c = '?'
      · subst h2
        simp [tokensF, charTok, tokensF_eq_map_charTok ps m hb' hm]
      · simp [tokensF, charTok, h1, h2, hc,
          tokensF_eq_map_charTok ps m hb' hm]

/-- Tokenizing a `[`-free pattern gives the per-character tokens. -/
theorem gtokens_eq_map_charTok {p : Str} (hb : '[' ∉ p) :
    gtokens p = p.map charTok :=
  tokensF_eq_map_charTok p p.length hb le_rfl

/-- A `[`-free pattern matches itself: each literal matches its own
character, `?` matches the character `?`, and `*` matches the one-character
run consisting of `*` itself. -/
theorem gmatch_self :
    ∀ (p : Str), '[' ∉ p → gmatch (p.map charTok) p = true
  | [], _ => rfl
  | c :: ps, hb => by
    have hb' : '[' ∉ ps := fun h => hb (List.mem_cons_of_mem c h)
    have ih := gmatch_self ps hb'
    by_cases h1 : c = '*'
    · subst h1
      simp only [List.map_cons, charTok, if_pos rfl, gmatch]
      exact anySuffix_of_suffix (List.suffix_cons '*' ps) ih
    · by_cases h2 : c = '?'
      · subst h2
        simp [charTok, gmatch, ih]
      · simp [charTok, h1, h2, gmatch, ih]

/-- A trailing `*` token absorbs any appended suffix. -/
theorem gmatch_append_star :
    ∀ (ts : List GTok) (s v : Str), gmatch ts s = true →
      gmatch (ts ++ [GTok.star]) (s ++ v) = true
  | [], s, v, h => by
    have : s = [] := by simpa [gmatch, List.isEmpty_iff] using h
    subst this
    exact anySuffix_of_suffix List.nil_suffix rfl
  | GTok.star :: ts, s, v, h => by
    rcases exists_suffix_of_anySuffix (by simpa [gmatch] using h) with
      ⟨t, hts, hk⟩
    have ih := gmatch_append_star ts t v hk
    rcases hts with ⟨w, rfl⟩
    exact anySuffix_of_suffix
      (show t ++ v <:+ w ++ t ++ v from ⟨w, by simp [List.append_assoc]⟩) ih
  | GTok.qmark :: ts, s, v, h => by
    cases s with
    | nil => simp [gmatch] at h
    | cons c s' =>
      have ih := gmatch_append_star ts s' v (by simpa [gmatch] using h)
      simpa [gmatch] using ih
  | GTok.lit a :: ts, s, v, h => by
    cases s with
    | nil => simp [gmatch] at h
    | cons c s' =>
      rw [gmatch] at h
      rcases Bool.and_eq_true_iff.1 h with ⟨hca, hrest⟩
      have ih := gmatch_append_star ts s' v hrest
      simp only [List.cons_append, gmatch]
      exact Bool.and_eq_true_iff.2 ⟨hca, ih⟩
  | GTok.cls neg inner :: ts, s, v, h => by
    cases s with
    | nil => simp [gmatch] at h
    | cons c s' =>
      rw [gmatch] at h
      rcases Bool.and_eq_true_iff.1 h with ⟨hca, hrest⟩
      have ih := gmatch_append_star ts s' v hrest
      simp only [List.cons_append, gmatch]
      exact Bool.and_eq_true_iff.2 ⟨hca, ih⟩

/-- The wrapped token list `*, w, *` accepts any string containing the
`[`-free word `w` as an infix. -/
theorem gmatch_star_wrap {w s : Str} (hb : '[' ∉ w) (h : w <:+: s) :
    gmatch (GTok.star :: (w.map charTok ++ [GTok.star])) s = true := by
  rcases h with ⟨u, v, rfl⟩
  have h1 : gmatch (w.map charTok ++ [GTok.star]) (w ++ v) =
      true := gmatch_append_star _ _ _ (gmatch_self w hb)
  exact anySuffix_of_suffix
    (show w ++ v <:+ u ++ w ++ v from ⟨u, by simp [List.append_assoc]⟩) h1

/-- The bare `*` pattern accepts every string. -/
theorem gmatch_star_all : ∀ (s : Str), gmatch [GTok.star] s = true := by
  intro s
  exact anySuffix_of_suffix List.nil_suffix rfl

/-- `toLower` fixes `*` and nothing else maps to it. -/
theorem toLower_star_iff {c : Char} : c.toLower = '*' ↔ c = '*' :=
  toLower_eq_iff_of_special (by left; decide)

/-- Lower-casing preserves whether the first character is `*`. -/
theorem lc_head_star_iff {l : Str} :
    (lc l).head? = some '*' ↔ l.head? = some '*' := by
  cases l with
  | nil => simp [lc]
  | cons c t => simp [lc, toLower_star_iff]

/-- Lower-casing preserves whether the last character is `*`. -/
theorem lc_getLast_star_iff {l : Str} :
    (lc l).getLast? = some '*' ↔ l.getLast? = some '*' := by
  rw [lc, List.getLast?_map]
  cases hl : l.getLast? <;> simp [toLower_star_iff]

/-- Lower-casing commutes with the wildcard wrapping. -/
theorem lc_addStars (p : Str) : lc (addStars p) = addStars (lc p) := by
  unfold addStars
  by_cases h1 : p.head? = some '*'
  · simp only [if_pos h1, if_pos (lc_head_star_iff.2 h1)]
    by_cases h2 : p.getLast? = some '*'
    · simp only [if_pos h2, if_pos (lc_getLast_star_iff.2 h2)]
    · simp only [if_neg h2, if_neg (mt lc_getLast_star_iff.1 h2)]
      simp [lc]
  · simp only [if_neg h1, if_neg (mt lc_head_star_iff.1 h1)]
    have e1 : lc ('*' :: p) = '*' :: lc p := by simp [lc]
    by_cases h2 : ('*' :: p).getLast? = some '*'
    · have h2' : ('*' :: lc p).getLast? = some '*' := by
        rw [← e1]
        exact lc_getLast_star_iff.2 h2
      simp only [if_pos h2, if_pos h2', e1]
    · have h2' : ¬('*' :: lc p).getLast? = some '*' := by
        rw [← e1]
        exact mt lc_getLast_star_iff.1 h2
      simp only [if_neg h2, if_neg h2']
      simp [lc]

/-- A nonempty list keeps its last element under `cons`. -/
theorem getLast?_cons_of_ne_nil {a : Char} {q : Str} (hq : q ≠ []) :
    (a :: q).getLast? = q.getLast? := by
  cases q with
  | nil => exact absurd rfl hq
  | cons b l => exact List.getLast?_cons_cons

/-- Any string containing a `[`-free pattern `q` as an infix matches the
wildcard-wrapped pattern `addStars q`. -/
theorem gmatch_addStars {q t : Str} (hb : '[' ∉ q) (h : q <:+: t) :
    gmatch (gtokens (addStars q)) t = true := by
  have hstar : charTok '*' = GTok.star := by decide
  cases q with
  | nil =>
    rw [show addStars ([] : Str) = ['*'] from by decide,
      show gtokens ['*'] = [GTok.star] from by decide]
    exact gmatch_star_all t
  | cons c q' =>
    rcases List.eq_nil_or_concat (c :: q') with hemp | ⟨w0, a, he⟩
    · exact absurd hemp (List.cons_ne_nil c q')
    · rw [List.concat_eq_append] at he
      have hlast : (c :: q').getLast? = some a := by
        rw [he]
        exact List.getLast?_concat _
      have hbw0 : '[' ∉ w0 := fun hx => by
        rw [he] at hb
        exact hb (List.mem_append.2 (Or.inl hx))
      by_cases h1 : c = '*'
      · subst h1
        have hbq : '[' ∉ q' := fun hx => hb (List.mem_cons_of_mem _ hx)
        have hhead : ('*' :: q').head? = some '*' := rfl
        by_cases h2 : a = '*'
        · subst h2
          -- pattern starts and ends with '*': kept as is
          have ha : addStars ('*' :: q') = '*' :: q' := by
            simp only [addStars]
            rw [if_pos hhead, if_pos hlast]
          rw [ha]
          cases w0 with
          | nil =>
            -- the pattern is exactly "*"
            have hq : q' = [] := by simpa using he
            subst hq
            rw [show gtokens ['*'] = [GTok.star] from by decide]
            exact gmatch_star_all t
          | cons e w1 =>
            have he2 : '*' :: q' = e :: (w1 ++ ['*']) := by simpa using he
            have hq : q' = w1 ++ ['*'] := by injection he2
            have hbw : '[' ∉ w1 := fun hx => by
              rw [hq] at hbq
              exact hbq (List.mem_append.2 (Or.inl hx))
            rw [hq, gtokens_eq_map_charTok (by rw [← hq]; exact hb)]
            have hmap : ('*' :: (w1 ++ ['*'])).map charTok =
                GTok.star :: (w1.map charTok ++ [GTok.star]) := by
              simp [hstar]
            rw [hmap]
            refine gmatch_star_wrap hbw (List.IsInfix.trans ?_ (hq ▸ h))
            exact ⟨['*'], ['*'], by simp⟩
        · -- pattern starts with '*' but does not end with one
          have hnl : ¬('*' :: q').getLast? = some '*' := by
            rw [hlast]
            simpa using h2
          have ha : addStars ('*' :: q') = ('*' :: q') ++ ['*'] := by
            simp only [addStars]
            rw [if_pos hhead, if_neg hnl]
          have hbfull : '[' ∉ ('*' :: q') ++ ['*'] := by
            intro hx
            rcases List.mem_append.1 hx with h3 | h3
            · exact hb h3
            · rcases List.mem_singleton.1 h3 with h4
              exact absurd h4 (by decide)
          rw [ha, gtokens_eq_map_charTok hbfull]
          have hmap : (('*' :: q') ++ ['*']).map charTok =
              GTok.star :: (q'.map charTok ++ [GTok.star]) := by
            simp [hstar]
          rw [hmap]
          refine gmatch_star_wrap hbq (List.IsInfix.trans ?_ h)
          exact ⟨['*'], [], by simp⟩
      · -- pattern does not start with '*'
        have hh : ¬(c :: q').head? = some '*' := by simpa using h1
        by_cases h2 : a = '*'
        · subst h2
          -- ends with '*': only a leading '*' is added
          have ha : addStars (c :: q') = '*' :: c :: q' := by
            simp only [addStars]
            rw [if_neg hh, if_pos (by
              rw [getLast?_cons_of_ne_nil (List.cons_ne_nil c q')]
              exact hlast)]
          have hbfull : '[' ∉ '*' :: c :: q' := by
            intro hx
            rcases List.mem_cons.1 hx with h3 | h3
            · exact absurd h3.symm (by decide)
            · exact hb h3
          rw [ha, gtokens_eq_map_charTok hbfull]
          have hmap : ('*' :: c :: q').map charTok =
              GTok.star :: ((w0 ++ ['*']).map charTok) := by
            rw [← he]
            simp [hstar]
          have hmap2 : (w0 ++ ['*']).map charTok =
              w0.map charTok ++ [GTok.star] := by
            simp [hstar]
          rw [hmap, hmap2]
          refine gmatch_star_wrap hbw0 (List.IsInfix.trans ?_ h)
          rw [he]
          exact ⟨[], ['*'], by simp⟩
        · -- neither end has a '*': both are added
          have hnl : ¬('*' :: c :: q').getLast? = some '*' := by
            rw [getLast?_cons_of_ne_nil (List.cons_ne_nil c q'), hlast]
            simpa using h2
          have ha : addStars (c :: q') = ('*' :: c :: q') ++ ['*'] := by
            simp only [addStars]
            rw [if_neg hh, if_neg hnl]
          have hbfull : '[' ∉ ('*' :: c :: q') ++ ['*'] := by
            intro hx
            rcases List.mem_append.1 hx with h3 | h3
            · rcases List.mem_cons.1 h3 with h4 | h4
              · exact absurd h4.symm (by decide)
              · exact hb h4
            · rcases List.mem_singleton.1 h3 with h4
              exact absurd h4 (by decide)
          rw [ha, gtokens_eq_map_charTok hbfull]
          have hmap : (('*' :: c :: q') ++ ['*']).map charTok =
              GTok.star :: ((c :: q').map charTok ++ [GTok.star]) := by
            simp [hstar]
          rw [hmap]
          exact gmatch_star_wrap hb h

/-! ## Claim C2 -/

/-- Claim C2, amended: for every non-empty pattern without leading or
trailing `*` and *without a `[` character*, `grep_objects` includes every
object whose name contains the pattern as a substring case-insensitively.
(The original claim, quantified over all patterns, fails for patterns
containing a character class such as `a[b]`.) -/
theorem grep_objects_includes_substring_match
    (pattern : Str) (kobjs : List KObject) (o : KObject) (n : Str)
    (hne : pattern ≠ [])
    (hh : pattern.head? ≠ some '*')
    (hl : pattern.getLast? ≠ some '*')
    (hb : '[' ∉ pattern)
    (hname : o.getattr (str "name") = some n)
    (hsub : lc pattern <:+: lc n)
    (hmem : o ∈ kobjs) :
    o ∈ grep_objects pattern kobjs := by
  simp only [grep_objects]
  refine List.mem_filter.2 ⟨hmem, ?_⟩
  have hlineinf : n <:+: o.line := columns_infix (getattr_mem_columns hname)
  have hsp : strip pattern <:+: pattern := strip_infix pattern
  have hinf : lc (strip pattern) <:+: lc o.line :=
    ((hsp.map Char.toLower).trans hsub).trans (hlineinf.map Char.toLower)
  have hbsp : '[' ∉ strip pattern := fun hx => hb (hsp.sublist.subset hx)
  have hblc : '[' ∉ lc (strip pattern) := lbrack_not_mem_lc hbsp
  show globMatch (lc (addStars (strip pattern))) (lc o.line) = true
  rw [globMatch, lc_addStars]
  exact gmatch_addStars hblc hinf

/-- Witness for C2's amended theorem: pattern `api` matches the object
named `billing-api-worker`. -/
theorem grep_objects_includes_substring_match_witness :
    (str "api" ≠ [] ∧ (str "api").head? ≠ some '*' ∧
     (str "api").getLast? ≠ some '*' ∧ '[' ∉ str "api" ∧
     objApi.getattr (str "name") = some (str "billing-api-worker") ∧
     lc (str "api") <:+: lc (str "billing-api-worker") ∧
     objApi ∈ [objApi]) ∧
    objApi ∈ grep_objects (str "api") [objApi] :=
  ⟨⟨by decide, by decide, by decide, by decide, by decide, by decide,
    by decide⟩,
   grep_objects_includes_substring_match (str "api") [objApi] objApi
     (str "billing-api-worker") (by decide) (by decide) (by decide)
     (by decide) (by decide) (by decide) (by decide)⟩

/-- Counterexample to C2 as stated: the pattern `a[b]` is non-empty and has
no leading or trailing `*`, the object's name `xa[b]x` contains it as a
substring, yet `grep_objects` excludes the object — `fnmatch` interprets
`[b]` as a character class requiring `a` to be followed by `b`. -/
theorem grep_objects_substring_claim_counterexample :
    (str "a[b]") ≠ [] ∧ (str "a[b]").head? ≠ some '*' ∧
    (str "a[b]").getLast? ≠ some '*' ∧
    objBracket.getattr (str "name") = some (str "xa[b]x") ∧
    lc (str "a[b]") <:+: lc (str "xa[b]x") ∧
    objBracket ∈ [objBracket] ∧
    grep_objects (str "a[b]") [objBracket] = [] := by
  refine ⟨by decide, by decide, by decide, by decide, by decide,
    by decide, ?_⟩
  decide

/-! ## Claim C1 -/

/-- Claim C1, amended: `singleton_only` on the empty sequence returns
`none`, on a one-element sequence returns that element, and on two or more
elements raises `SingleValueException` — whose message is fixed and
suggests an index flag but does not carry the element count. -/
theorem singleton_only_spec {α : Type} (xs : List α) :
    (xs = [] → singleton_only xs = Except.ok none) ∧
    (∀ a, xs = [a] → singleton_only xs = Except.ok (some a)) ∧
    (2 ≤ xs.length → singleton_only xs = Except.error singleValueMsg) := by
  refine ⟨?_, ?_, ?_⟩
  · rintro rfl
    rfl
  · rintro a rfl
    rfl
  · intro h
    cases xs with
    | nil => simp at h
    | cons a ys =>
      cases ys with
      | nil => simp at h
      | cons b zs => rfl

/-- Witness for C1's amended theorem at the empty, one-element and
two-element sequences. -/
theorem singleton_only_spec_witness :
    (singleton_only ([] : List String) = Except.ok none) ∧
    (singleton_only ["a"] = Except.ok (some "a")) ∧
    (2 ≤ (["a", "b"] : List String).length ∧
     singleton_only ["a", "b"] = Except.error singleValueMsg) :=
  ⟨(singleton_only_spec []).1 rfl,
   (singleton_only_spec ["a"]).2.1 "a" rfl,
   by decide, (singleton_only_spec ["a", "b"]).2.2 (by decide)⟩

/-- Counterexample to C1 as stated: the exception raised for a 2-element
input is the very same value as for a 3-element input, so it cannot carry
the count of elements (the source `SingleValueException.__init__` takes no
arguments and builds a fixed message). -/
theorem singleton_only_count_counterexample :
    singleton_only [str "a", str "b"] =
      singleton_only [str "a", str "b", str "c"] ∧
    singleton_only [str "a", str "b", str "c"] =
      Except.error singleValueMsg :=
  ⟨rfl, rfl⟩

/-! ## Claim C3 -/

/-- `take` at an in-range 1-based position is the `(k-1)`-th element. -/
theorem take_eq_getElem? :
    ∀ (xs : List α) (k : Nat), 1 ≤ k → k ≤ xs.length →
      take xs k = xs[k - 1]?
  | [], k, _, h2 => by
    simp at h2
    omega
  | x :: xs, k, h1, h2 => by
    by_cases hk : k = 1
    · subst hk
      simp [take]
    · obtain ⟨m, rfl⟩ : ∃ m, k = m + 2 := ⟨k - 2, by omega⟩
      have ih := take_eq_getElem? xs (m + 1) (by omega)
        (by simpa using h2)
      simp only [take, if_neg hk]
      simpa using ih

/-- `take` past the end of the sequence is `none`. -/
theorem take_eq_none :
    ∀ (xs : List α) (k : Nat), xs.length < k → take xs k = none
  | [], _, _ => rfl
  | x :: xs, k, h => by
    have hk : k ≠ 1 := by
      simp at h
      omega
    simp only [take, if_neg hk]
    exact take_eq_none xs (k - 1) (by simp at h; omega)

/-- Claim C3: index selection is 1-based and bounds-checked — in range it
yields the k-th element, out of range it yields `none`, which the `runner`
index step turns into the `None` output (exit code 1) with no error
raised (`take` and `applyIndex` are total). -/
theorem take_one_based (xs : List α) (k : Nat) (h1 : 1 ≤ k) :
    (k ≤ xs.length → take xs k = xs[k - 1]? ∧ (xs[k - 1]?).isSome = true) ∧
    (xs.length < k →
      take xs k = none ∧
      applyIndex (PipeVal.seq xs) (some k) = (PipeVal.noneV, none) ∧
      exitCode (applyIndex (PipeVal.seq xs) (some k)).1 = 1) := by
  constructor
  · intro h2
    refine ⟨take_eq_getElem? xs k h1 h2, ?_⟩
    rw [List.getElem?_eq_getElem (by omega)]
    rfl
  · intro h2
    have hn := take_eq_none xs k h2
    refine ⟨hn, ?_, ?_⟩
    · simp [applyIndex, hn]
    · simp [applyIndex, hn, exitCode]

/-- Witness for C3 at index 1 of `["a", "b"]` (yielding `"a"`) and at
index 3 of the same 2-element sequence (yielding `none` and exit code 1). -/
theorem take_one_based_witness :
    (take ["a", "b"] 1 = some "a") ∧
    ((["a", "b"] : List String).length < 3 ∧
     take ["a", "b"] 3 = none ∧
     applyIndex (PipeVal.seq ["a", "b"]) (some 3) = (PipeVal.noneV, none)) := by
  have h1 := (take_one_based ["a", "b"] 1 (by decide)).1 (by decide)
  have h3 := (take_one_based ["a", "b"] 3 (by decide)).2 (by decide)
  exact ⟨by simpa using h1.1, by decide, h3.1, h3.2.1⟩

/-! ## Claim C4 -/

/-- Claim C4, amended: without a pending index a scalar or absent stage
output passes through unchanged, but when *any* index is pending (even
index 1) a scalar output is replaced by `None`; an absent output stays
`None`. -/
theorem applyIndex_scalar_spec {α : Type} (a : α) (k : Nat) :
    applyIndex (PipeVal.scalar a) none = (PipeVal.scalar a, none) ∧
    applyIndex (PipeVal.scalar a) (some k) = (PipeVal.noneV, none) ∧
    applyIndex (PipeVal.noneV : PipeVal α) (some k) = (PipeVal.noneV, none) ∧
    applyIndex (PipeVal.noneV : PipeVal α) none = (PipeVal.noneV, none) :=
  ⟨rfl, rfl, rfl, rfl⟩

/-- Counterexample to C4 as stated: requesting index 1 on a scalar yields
`None`, not the unchanged scalar — the code replaces any non-sequence
output by `None` whenever an index is pending, regardless of its value. -/
theorem applyIndex_scalar_counterexample :
    applyIndex (PipeVal.scalar "a") (some 1) = (PipeVal.noneV, none) ∧
    (PipeVal.noneV : PipeVal String) ≠ PipeVal.scalar "a" :=
  ⟨rfl, by decide⟩

/-! ## Claim C9 -/

/-- Claim C9: whatever the outcome of the provision (`kubectl run`), ready
wait (`kubectl wait`, a failure of which models `RelayNotReadyError`), and
forwarding commands — success, error, or interruption of the foreground
command — the relay-pod deletion of the `EXIT` trap appears exactly once
in the script's action trace, and it is the last action. -/
theorem relay_teardown_exactly_once (r1 r2 r3 : StepOutcome) :
    (relayScriptTrace r1 r2 r3).count RelayAction.cleanupDelete = 1 ∧
    (relayScriptTrace r1 r2 r3).getLast? = some RelayAction.cleanupDelete := by
  cases r1 <;> cases r2 <;> cases r3 <;> exact ⟨rfl, rfl⟩

/-! ## Claim C10 -/

/-- Claim C10: the default field selector of `grep_objects` is the whole
raw line, so a pattern matching the status column (`running`) selects an
object whose *name* (`mypod`) does not contain the pattern at all. -/
theorem grep_objects_matches_whole_line :
    objRunning.getattr (str "name") = some (str "mypod") ∧
    ¬(lc (str "running") <:+: lc (str "mypod")) ∧
    grep_objects (str "running") [objRunning] = [objRunning] := by
  refine ⟨by decide, by decide, ?_⟩
  decide

/-! ## Claim C5 -/

/-- Claim C5: the colon-delimited grammar of `PortForward.parse` — the
three documented shapes parse as specified, a zero-colon integer doubles
as both ports, more than two colons always fail, and for each remaining
colon count the parse fails *exactly when* a port field is non-integer
(the pod port, or a non-empty host that `int()` rejects), so every
malformed input fails with an error (`ValueError` in the source). -/
theorem portforward_parse_spec :
    PortForward.parse (str "8888:9999") =
      Except.ok ⟨some 8888, 9999, none⟩ ∧
    PortForward.parse (str ":9999") = Except.ok ⟨none, 9999, none⟩ ∧
    PortForward.parse (str "8888:10.0.0.5:9999") =
      Except.ok ⟨some 8888, 9999, some (str "10.0.0.5")⟩ ∧
    (∀ (s : Str) (v : Int), (strip s).count ':' = 0 →
      pyInt (strip s) = some v →
      PortForward.parse s = Except.ok ⟨some v, v, none⟩) ∧
    (PortForward.parse (str "abc")).isOk = false ∧
    (∀ s : Str, 2 < (strip s).count ':' →
      PortForward.parse s = Except.error "Malform port spec") ∧
    (∀ s : Str, (strip s).count ':' = 0 →
      ((PortForward.parse s).isOk = false ↔ pyInt (strip s) = none)) ∧
    (∀ (s host pod : Str), (strip s).count ':' = 1 →
      splitOnChar ':' (strip s) = [host, pod] →
      ((PortForward.parse s).isOk = false ↔
        (pyInt pod = none ∨ (strip host ≠ [] ∧ pyInt host = none)))) ∧
    (∀ (s host remote pod : Str), (strip s).count ':' = 2 →
      splitOnChar ':' (strip s) = [host, remote, pod] →
      ((PortForward.parse s).isOk = false ↔
        (pyInt pod = none ∨ (strip host ≠ [] ∧ pyInt host = none)))) := by
  refine ⟨by decide, by decide, by decide, ?_, by decide, ?_, ?_, ?_, ?_⟩
  · intro s v h0 hp
    simp [PortForward.parse, h0, hp]
  · intro s h2
    have hne2 : ¬(strip s).count ':' = 2 := by omega
    have hne1 : ¬(strip s).count ':' = 1 := by omega
    have hne0 : ¬(strip s).count ':' = 0 := by omega
    simp [PortForward.parse, hne2, hne1, hne0]
  · intro s h0
    cases hp : pyInt (strip s) <;>
      simp [PortForward.parse, h0, hp, Except.isOk, Except.toBool]
  · intro s host pod h1 hsplit
    by_cases hh : strip host = []
    · cases hp : pyInt pod <;>
        simp [PortForward.parse, h1, hsplit, hostField, podField, hh, hp,
          Bind.bind, Except.bind, Except.isOk, Except.toBool]
    · cases hhi : pyInt host <;> cases hp : pyInt pod <;>
        simp [PortForward.parse, h1, hsplit, hostField, podField, hh, hhi,
          hp, Bind.bind, Except.bind, Except.isOk, Except.toBool]
  · intro s host remote pod h2 hsplit
    by_cases hh : strip host = []
    · cases hp : pyInt pod <;>
        simp [PortForward.parse, h2, hsplit, hostField, podField, hh, hp,
          Bind.bind, Except.bind, Except.isOk, Except.toBool]
    · cases hhi : pyInt host <;> cases hp : pyInt pod <;>
        simp [PortForward.parse, h2, hsplit, hostField, podField, hh, hhi,
          hp, Bind.bind, Except.bind, Except.isOk, Except.toBool]

/-- Witness for C5's universally quantified clauses: a bare port, a
three-colon spec, a zero-colon non-integer, and one-colon and two-colon
specs failing on a non-integer pod port and on a non-integer host port. -/
theorem portforward_parse_spec_witness :
    ((str "7").count ':' = 0 ∧
     PortForward.parse (str "7") = Except.ok ⟨some 7, 7, none⟩) ∧
    (2 < (strip (str "a:b:c:d")).count ':' ∧
     PortForward.parse (str "a:b:c:d") = Except.error "Malform port spec") ∧
    ((PortForward.parse (str "12a")).isOk = false) ∧
    ((PortForward.parse (str "1:b")).isOk = false) ∧
    ((PortForward.parse (str "x:9999")).isOk = false) ∧
    ((PortForward.parse (str "1:r:b")).isOk = false) ∧
    ((PortForward.parse (str "x:r:9999")).isOk = false) :=
  ⟨⟨by decide, portforward_parse_spec.2.2.2.1 (str "7") 7 (by decide)
      (by decide)⟩,
   ⟨by decide, portforward_parse_spec.2.2.2.2.2.1 (str "a:b:c:d")
      (by decide)⟩,
   (portforward_parse_spec.2.2.2.2.2.2.1 (str "12a") (by decide)).2
      (by decide),
   (portforward_parse_spec.2.2.2.2.2.2.2.1 (str "1:b") (str "1")
      (str "b") (by decide) (by decide)).2 (Or.inl (by decide)),
   (portforward_parse_spec.2.2.2.2.2.2.2.1 (str "x:9999") (str "x")
      (str "9999") (by decide) (by decide)).2
      (Or.inr ⟨by decide, by decide⟩),
   (portforward_parse_spec.2.2.2.2.2.2.2.2 (str "1:r:b") (str "1")
      (str "r") (str "b") (by decide) (by decide)).2 (Or.inl (by decide)),
   (portforward_parse_spec.2.2.2.2.2.2.2.2 (str "x:r:9999") (str "x")
      (str "r") (str "9999") (by decide) (by decide)).2
      (Or.inr ⟨by decide, by decide⟩)⟩


/-! ## Claim C6 -/

/-- `splitOnChar` never returns an empty list of parts. -/
theorem splitOnChar_ne_nil (sep : Char) :
    ∀ l : Str, splitOnChar sep l ≠ []
  | [] => by simp [splitOnChar]
  | c :: cs => by
    simp only [splitOnChar]
    by_cases hc : c = sep
    · simp [hc]
    · rw [if_neg hc]
      cases hs : splitOnChar sep cs with
      | nil => exact absurd hs (splitOnChar_ne_nil sep cs)
      | cons h t => simp

/-- The first part produced by `splitOnChar` is everything before the
first separator. -/
theorem splitOnChar_head_takeWhile (sep : Char) :
    ∀ l : Str,
      (splitOnChar sep l).head? = some (l.takeWhile (fun c => c != sep))
  | [] => rfl
  | c :: cs => by
    simp only [splitOnChar]
    by_cases hc : c = sep
    · subst hc
      simp [List.takeWhile_cons]
    · rw [if_neg hc]
      cases hs : splitOnChar sep cs with
      | nil => exact absurd hs (splitOnChar_ne_nil sep cs)
      | cons h t =>
        have := splitOnChar_head_takeWhile sep cs
        rw [hs] at this
        have hh : h = cs.takeWhile (fun c => c != sep) := by
          simpa using this
        simp [List.takeWhile_cons, hc, hh]

/-- Splitting at the first separator occurrence: a separator-free prefix
becomes the first part. -/
theorem splitOnChar_append_sep {sep : Char} :
    ∀ {k : Str}, sep ∉ k → ∀ rest : Str,
      splitOnChar sep (k ++ sep :: rest) = k :: splitOnChar sep rest
  | [], _, rest => by simp [splitOnChar]
  | c :: k', hk, rest => by
    have hc : ¬c = sep := fun h =>
      hk (h ▸ List.mem_cons_self c k')
    have hk' : sep ∉ k' := fun h => hk (List.mem_cons_of_mem c h)
    show splitOnChar sep (c :: (k' ++ sep :: rest)) =
      (c :: k') :: splitOnChar sep rest
    simp only [splitOnChar, if_neg hc]
    rw [splitOnChar_append_sep hk' rest]

/-- Claim C6, amended: the env probe splits each line on `=`, keeps the
*segment between the first and second occurrence* as the value (so a value
cannot itself contain `=` — everything from the second `=` on is dropped),
trims whitespace from both key and value, and maps the three example lines
to `{FOO: "bar", BAZ: "qux", EMPTY: ""}`. -/
theorem probeEnv_spec (k v : Str) (hk : '=' ∉ k) :
    parseEnvLine (k ++ '=' :: v) =
      (strip k, strip (v.takeWhile (fun c => c != '='))) ∧
    probeEnv [str "FOO=bar", str "BAZ=qux=extra", str "EMPTY="] =
      [(str "FOO", str "bar"), (str "BAZ", str "qux"),
       (str "EMPTY", [])] := by
  constructor
  · simp only [parseEnvLine, splitOnChar_append_sep hk v]
    cases hs : splitOnChar '=' v with
    | nil => exact absurd hs (splitOnChar_ne_nil '=' v)
    | cons h t =>
      have := splitOnChar_head_takeWhile '=' v
      rw [hs] at this
      have hh : h = v.takeWhile (fun c => c != '=') := by simpa using this
      simp [hh]
  · decide

/-- Witness for C6's amended theorem at the line `BAZ=qux=extra`: the
probed value is `qux`. -/
theorem probeEnv_spec_witness :
    ('=' ∉ str "BAZ") ∧
    parseEnvLine (str "BAZ" ++ '=' :: str "qux=extra") =
      (strip (str "BAZ"),
       strip ((str "qux=extra").takeWhile (fun c => c != '='))) :=
  ⟨by decide, (probeEnv_spec (str "BAZ") (str "qux=extra") (by decide)).1⟩

/-- Counterexample to C6 as stated: for the line `BAZ=qux=extra` the
probed value is `qux` — `parts[1]` of `line.split("=")` — not the claimed
`qux=extra` that splitting only on the first `=` would give. -/
theorem probeEnv_first_split_counterexample :
    envLookup (probeEnv [str "FOO=bar", str "BAZ=qux=extra", str "EMPTY="])
      (str "BAZ") = some (str "qux") ∧
    str "qux" ≠ str "qux=extra" :=
  ⟨by decide, by decide⟩

/-! ## Claim C7 -/

/-- Claim C7, amended: resolving pods from an upstream object requires it
to be a deployment (otherwise the run aborts with `deployment object
expected`), lists only the pods returned for that deployment's `selector`
attribute — *and then still applies the glob pattern filter to them*: the
result is exactly `grep_objects pattern` of the selector-scoped listing,
hence a subset of it (the filter is not bypassed). -/
theorem grep_pods_spec (getPods : Option Str → List KObject)
    (pattern : Str) (k : KObject) :
    (k.is_deployment = false →
      grep_pods getPods pattern (some k) =
        Except.error "deployment object expected") ∧
    (∀ sel, k.is_deployment = true →
      k.getattr (str "selector") = some sel →
      grep_pods getPods pattern (some k) =
        Except.ok (grep_objects pattern (getPods (some sel))) ∧
      ∀ o ∈ grep_objects pattern (getPods (some sel)),
        o ∈ getPods (some sel)) ∧
    grep_pods getPods pattern none =
      Except.ok (grep_objects pattern (getPods none)) := by
  refine ⟨?_, ?_, rfl⟩
  · intro hd
    simp [grep_pods, require, hd, Bind.bind, Except.bind]
  · intro sel hd hsel
    constructor
    · simp [grep_pods, require, hd, hsel, Bind.bind, Except.bind]
    · intro o ho
      simp only [grep_objects] at ho
      exact (List.mem_filter.1 ho).1

/-- Witness for C7's amended theorem: the deployment `depApi` with
selector `app=api` and the listing `getPodsApi`. -/
theorem grep_pods_spec_witness :
    (depApi.is_deployment = true ∧
     depApi.getattr (str "selector") = some (str "app=api")) ∧
    grep_pods getPodsApi (str "api") (some depApi) =
      Except.ok (grep_objects (str "api") (getPodsApi (some (str "app=api")))) :=
  ⟨⟨by decide, by decide⟩,
   ((grep_pods_spec getPodsApi (str "api") depApi).2.1 (str "app=api")
     (by decide) (by decide)).1⟩

/-- Counterexample to C7 as stated: the selector-scoped listing returns
the pod `api-123`, yet with pattern `zzz` the result of `grep_pods` is
empty — the glob filter is applied to the selector-scoped pods, not
bypassed. -/
theorem grep_pods_filter_counterexample :
    depApi.is_deployment = true ∧
    depApi.getattr (str "selector") = some (str "app=api") ∧
    getPodsApi (some (str "app=api")) = [podApi123] ∧
    grep_pods getPodsApi (str "zzz") (some depApi) = Except.ok [] := by
  refine ⟨by decide, by decide, rfl, ?_⟩
  decide

/-! ## Claim C8 -/

/-- Keys of a zip are the first list truncated to the second's length. -/
theorem map_fst_zip_take :
    ∀ (l1 : List α) (l2 : List β),
      (l1.zip l2).map Prod.fst = l1.take l2.length
  | [], _ => by simp
  | _ :: _, [] => by simp
  | a :: l1, b :: l2 => by
    simp [map_fst_zip_take l1 l2]

/-- Values of a zip are the second list truncated to the first's length. -/
theorem map_snd_zip_take :
    ∀ (l1 : List α) (l2 : List β),
      (l1.zip l2).map Prod.snd = l2.take l1.length
  | [], _ => by simp
  | _ :: _, [] => by simp
  | a :: l1, b :: l2 => by
    simp [map_snd_zip_take l1 l2]

/-- `getattr` misses exactly the keys absent from the attribute mapping. -/
theorem getattr_eq_none_iff (o : KObject) (k : Str) :
    o.getattr k = none ↔ k ∉ o.attributes.map Prod.fst := by
  simp only [KObject.getattr, Option.map_eq_none', List.find?_eq_none,
    List.mem_reverse, List.mem_map, beq_iff_eq]
  constructor
  · rintro h ⟨p, hp, rfl⟩
    exact h p hp rfl
  · intro h p hp he
    exact h ⟨p, hp, he⟩

/-- Claim C8, amended: constructing a `KObject` never fails — the
attribute mapping is the zip of headers with whitespace-split fields
(fields beyond the header count silently dropped, missing trailing fields
leaving attributes unset), and a missing `namespace`/`name` key only
surfaces later, as a failed attribute lookup (`KeyError`), never as a
construction-time `MalformedRowError`. -/
theorem kobject_parse_total_spec (line type_ : Str) (headers : List Str) :
    (KObject.mk line type_ headers).attributes.map Prod.fst =
      headers.take (columns line).length ∧
    (KObject.mk line type_ headers).attributes.map Prod.snd =
      (columns line).take headers.length ∧
    ∀ k : Str,
      ((KObject.mk line type_ headers).getattr k = none ↔
        k ∉ (KObject.mk line type_ headers).attributes.map Prod.fst) :=
  ⟨map_fst_zip_take headers (columns line),
   map_snd_zip_take headers (columns line),
   fun k => getattr_eq_none_iff _ k⟩

/-- Counterexample to C8 as stated: on the one-field line `onlyone` the
attribute mapping lacks `name`, the spec-modelled parse fails with
`MalformedRowError`, but the source construction succeeds and simply
yields `none` (`KeyError`) for the `name` lookup. -/
theorem kobject_missing_name_counterexample :
    specParseWorkloadRef (str "onlyone") (str "pod") podHeaders =
      Except.error "MalformedRowError" ∧
    (KObject.mk (str "onlyone") (str "pod") podHeaders).attributes =
      [(str "namespace", str "onlyone")] ∧
    (KObject.mk (str "onlyone") (str "pod") podHeaders).getattr
      (str "name") = none := by
  refine ⟨by decide, by decide, by decide⟩

end Kubeglue

